import Mathlib

/-! Verification of toy-api: the request pipeline of `internal/app/server.go`.

A shallow embedding of the echo server's handlers and middleware.

* Go `[]byte` is `Bytes`, Go `string` is `String`, Go `int` is `Int`.
* `error` values are the inductive `GoError`; `errors.Is` / `errors.As` walk its
  `wrap` chain.
* A handler talks to its `http.ResponseWriter` only through the interface
  methods, so a handler is a tree of such calls (`Prog`): the continuation after
  `Write` receives what the writer returned, the continuation after `Header()`
  receives the header map.  `Prog.run` plays a tree against any implementation
  of the interface (`Writer`).
* `encoding/json` and the logger are libraries outside the repository: the
  three JSON entry points the code calls are the fields of `Lib`, log calls are
  recorded as `LogEntry` values.
-/

namespace ToyApi

/-! ## Data -/

/-- Go `[]byte`. -/
abbrev Bytes := List UInt8

/-- Go `http.Header`: header names with their values. -/
abbrev Header := List (String × List String)

/-- Go `error` values met by the code: the sentinel `io.EOF`,
`*json.UnmarshalTypeError`, `*json.SyntaxError`, a plain error made by
`fmt.Errorf` without the wrapping verb, and an error wrapping another one. -/
inductive GoError where
  | eof
  | typeErr (Value : String) (msg : String)
  | synErr (Offset : Int) (msg : String)
  | errorString (msg : String)
  | wrap (msg : String) (inner : GoError)
  deriving DecidableEq, Repr

/-- The method `err.Error()`. -/
def GoError.Error : GoError → String
  | .eof => "EOF"
  | .typeErr _ msg => msg
  | .synErr _ msg => msg
  | .errorString msg => msg
  | .wrap msg _ => msg

/-- The call `errors.Is(err, io.EOF)`: the sentinel is somewhere in the chain. -/
def errorsIsEOF : GoError → Bool
  | .eof => true
  | .wrap _ inner => errorsIsEOF inner
  | _ => false

/-- The call `errors.As(err, &te)` for `te *json.UnmarshalTypeError`: the
`Value` field of the first such error in the chain. -/
def errorsAsTypeErr : GoError → Option String
  | .typeErr v _ => some v
  | .wrap _ inner => errorsAsTypeErr inner
  | _ => none

/-- The call `errors.As(err, &se)` for `se *json.SyntaxError`: the `Offset`
field and the text of the first such error in the chain. -/
def errorsAsSynErr : GoError → Option (Int × String)
  | .synErr off msg => some (off, msg)
  | .wrap _ inner => errorsAsSynErr inner
  | _ => none

/-- An `io.ReadCloser` in its current state: read to the end from here it yields
`data`, the bytes not yet consumed, and then either the end of input
(`fault = none`) or the read error `fault`. -/
structure BodyReader where
  data : Bytes
  fault : Option GoError
  deriving DecidableEq, Repr

/-- The call `io.ReadAll(r)`: the bytes read and the error, if any, together
with the reader as the call leaves it: drained, with no byte left to yield. -/
def ioReadAll (b : BodyReader) : (Bytes × Option GoError) × BodyReader :=
  ((b.data, b.fault), { data := [], fault := b.fault })

/-- The expression `io.NopCloser(bytes.NewBuffer(body))`: a fresh reader over `body`. -/
def newBodyBuffer (body : Bytes) : BodyReader :=
  { data := body, fault := none }

/-- The fields of `*http.Request` the code touches. -/
structure Request where
  Method : String
  URL : String
  Proto : String
  Header : Header
  Body : BodyReader
  deriving DecidableEq, Repr

/-- The type `request` local to `handleEcho`: `Message *string` with tag `req`. -/
structure request where
  Message : Option String
  deriving DecidableEq, Repr

/-- The two `response` types that are JSON-encoded: the one of `handleError`
(field `Error`, tag `error`) and the one of `handleEcho` (field `Message`,
tag `res`). -/
inductive Envelope where
  | error (Error : String)
  | res (Message : String)
  deriving DecidableEq, Repr

/-- What `Write` returns: the count and the error. -/
abbrev WriteResult := Int × Option GoError

/-- A value logged under a key. -/
inductive LogValue where
  | str (s : String)
  | bytes (b : Bytes)
  | int (i : Int)
  | err (e : GoError)
  deriving DecidableEq, Repr

/-- One call of the logger: severity, message and fields. -/
structure LogEntry where
  level : String
  msg : String
  fields : List (String × LogValue)
  deriving DecidableEq, Repr

/-- The entry points of `encoding/json` used by the code.
`jsonMarshalHeader` is `json.Marshal` on a header map, `jsonDecode` is
`json.NewDecoder(body).Decode(&req)` (the outcome and the reader after the
decoder has consumed from it), `jsonEncode` is the bytes that
`json.NewEncoder(w).Encode(res)` hands to `w.Write`. -/
structure Lib where
  jsonMarshalHeader : Header → Except GoError String
  jsonDecode : BodyReader → Except GoError request × BodyReader
  jsonEncode : Envelope → Bytes

def MethodPost : String := "POST"
def StatusOK : Int := 200
def StatusBadRequest : Int := 400
def StatusMethodNotAllowed : Int := 405
def StatusInternalServerError : Int := 500

/-! ## Handlers as trees of calls on the response writer -/

/-- A computation that calls the methods of its `http.ResponseWriter` (and the
logger) and ends with a value. -/
inductive Prog (α : Type) : Type where
  | done (a : α)
  | header (k : Header → Prog α)
  | headerSet (key value : String) (k : Prog α)
  | writeHeader (code : Int) (k : Prog α)
  | write (body : Bytes) (k : WriteResult → Prog α)
  | log (e : LogEntry) (k : Prog α)

/-- Sequencing. -/
def Prog.bind {α β : Type} : Prog α → (α → Prog β) → Prog β
  | .done a, f => f a
  | .header k, f => .header (fun hd => (k hd).bind f)
  | .headerSet key v k, f => .headerSet key v (k.bind f)
  | .writeHeader c k, f => .writeHeader c (k.bind f)
  | .write b k, f => .write b (fun res => (k res).bind f)
  | .log e k, f => .log e (k.bind f)

/-- An implementation of `http.ResponseWriter` with state `σ`: `Header()`,
`Header().Set(key, value)`, `WriteHeader(code)` and `Write(body)`. -/
structure Writer (σ : Type) where
  Header : σ → Header
  headerSet : σ → String → String → σ
  WriteHeader : σ → Int → σ
  Write : σ → Bytes → σ × WriteResult

/-- The state after running: the value, the writer and the log. -/
structure Outcome (σ α : Type) where
  result : α
  sink : σ
  logs : List LogEntry

/-- Play a computation against a writer, appending to the log `l`. -/
def Prog.run {σ α : Type} (W : Writer σ) : Prog α → σ → List LogEntry → Outcome σ α
  | .done a, s, l => { result := a, sink := s, logs := l }
  | .header k, s, l => (k (W.Header s)).run W s l
  | .headerSet key v k, s, l => k.run W (W.headerSet s key v) l
  | .writeHeader c k, s, l => k.run W (W.WriteHeader s c) l
  | .write b k, s, l => (k (W.Write s b).2).run W (W.Write s b).1 l
  | .log e k, s, l => k.run W s (l ++ [e])

/-- A `http.HandlerFunc`: given the request it calls the writer; its value is
the request as the handler leaves it (`r` is a pointer). -/
abbrev HandlerFunc := Request → Prog Request

/-! ## `handleError` -/

/-- `server.handleError(code, err)`. -/
def handleError (lib : Lib) (code : Int) (err : GoError) : HandlerFunc := fun r =>
  .headerSet "Content-Type" "application/json" <|
  .writeHeader code <|
  .write (lib.jsonEncode (.error err.Error)) fun _ =>
  .done r

/-! ## `logRequest` -/

/-- The call `requestLogger.Debug("request received")` with its five fields. -/
def requestReceivedEntry (r : Request) (headers : String) (body : Bytes) : LogEntry :=
  { level := "debug", msg := "request received",
    fields := [("method", .str r.Method), ("url", .str r.URL), ("protocol", .str r.Proto),
               ("headers", .str headers), ("body", .bytes body)] }

/-- `server.logRequest(h)`. `io.ReadAll` drains `r.Body`, so from line 56 on the
request holds the drained reader, until line 61 puts a fresh buffer over the
bytes read in its place. A failed read of the body answers 500 and then falls
through to the rest of the function, as in the source (there is no `return`
after that call). `r.Body.Close()` has no effect that is modelled. -/
def logRequest (lib : Lib) (h : HandlerFunc) : HandlerFunc := fun r =>
  match lib.jsonMarshalHeader r.Header with
  | .error err => handleError lib StatusInternalServerError err r
  | .ok headers =>
    let read := ioReadAll r.Body
    let body := read.1.1
    let err := read.1.2
    let rDrained : Request := { r with Body := read.2 }
    let onErr : Prog Request :=
      match err with
      | some e => handleError lib StatusInternalServerError e rDrained
      | none => .done rDrained
    onErr.bind fun r0 =>
    let r1 : Request := { r0 with Body := newBodyBuffer body }
    .log (requestReceivedEntry r1 headers body) <|
    h r1

/-! ## `responseWrapper` -/

/-- The fields of `responseWrapper` next to the embedded `http.ResponseWriter`;
the embedded writer is the one the emitted calls go to. -/
structure responseWrapper where
  Status : Int
  WroteHeader : Bool
  Body : Bytes
  WriteCount : Int
  deriving DecidableEq, Repr

/-- `wrapResponseWriter(w)`: every field but the writer has its zero value. -/
def wrapResponseWriter : responseWrapper :=
  { Status := 0, WroteHeader := false, Body := [], WriteCount := 0 }

/-- `(*responseWrapper).WriteHeader(code)`. -/
def responseWrapper.WriteHeader (rw : responseWrapper) (code : Int) : Prog responseWrapper :=
  if rw.WroteHeader then
    .done rw
  else
    .writeHeader code (.done { rw with Status := code, WroteHeader := true })

/-- `(*responseWrapper).Write(body)`: the wrapper afterwards and the value returned. -/
def responseWrapper.Write (rw : responseWrapper) (body : Bytes) :
    Prog (responseWrapper × WriteResult) :=
  .write body fun res =>
  .done ({ rw with WriteCount := rw.WriteCount + 1, Body := body }, res)

/-- Run a computation with the wrapper `rw` as its response writer: `Header()`
is the promoted method of the embedded writer, `WriteHeader` and `Write` are
the wrapper's own. -/
def Prog.onWrapper {α : Type} : Prog α → responseWrapper → Prog (α × responseWrapper)
  | .done a, rw => .done (a, rw)
  | .header k, rw => .header (fun hd => (k hd).onWrapper rw)
  | .headerSet key v k, rw => .headerSet key v (k.onWrapper rw)
  | .writeHeader c k, rw => (rw.WriteHeader c).bind (fun rw1 => k.onWrapper rw1)
  | .write b k, rw => (rw.Write b).bind (fun p => (k p.2).onWrapper p.1)
  | .log e k, rw => .log e (k.onWrapper rw)

/-! ## `logResponse` -/

/-- The logger `log.WithFields(log.Fields{"func": "logResponse"})`. -/
def logResponseFields : List (String × LogValue) :=
  [("func", .str "logResponse")]

/-- The call `requestLogger.Debug("response sent")` with the four fields read
off the wrapper and the marshalled headers. -/
def responseSentEntry (rw : responseWrapper) (headers : String) : LogEntry :=
  { level := "debug", msg := "response sent",
    fields := logResponseFields ++
      [("status", .int rw.Status), ("headers", .str headers),
       ("body", .bytes rw.Body), ("write-count", .int rw.WriteCount)] }

/-- What `logResponse` does after the handler has returned: `rw.Header()` is
marshalled, a failure is logged at error severity (the headers are then logged
as the empty string), and the record of the response is logged. -/
def logResponseTail (lib : Lib) (rw : responseWrapper) (r : Request) : Prog Request :=
  .header fun hd =>
  match lib.jsonMarshalHeader hd with
  | .error err =>
    .log { level := "error", msg := "unable to marshal headers",
           fields := logResponseFields ++ [("error", .err err)] } <|
    .log (responseSentEntry rw "") (.done r)
  | .ok headers => .log (responseSentEntry rw headers) (.done r)

/-- `server.logResponse(h)`. -/
def logResponse (lib : Lib) (h : HandlerFunc) : HandlerFunc := fun r =>
  ((h r).onWrapper wrapResponseWriter).bind fun p => logResponseTail lib p.2 p.1

/-! ## `handleEcho` -/

/-- `server.handleEcho()`. -/
def handleEcho (lib : Lib) : HandlerFunc := fun r =>
  if r.Method ≠ MethodPost then
    handleError lib StatusMethodNotAllowed
      (.errorString ("method not allowed, expected " ++ MethodPost)) r
  else
    match lib.jsonDecode r.Body with
    | (.error err0, rest) =>
      let err1 := if errorsIsEOF err0 then GoError.errorString "missing request body" else err0
      let err2 :=
        match errorsAsTypeErr err1 with
        | some v => GoError.errorString
            ("incorrect json type given, expected object, received " ++ v)
        | none => err1
      let err3 :=
        match errorsAsSynErr err2 with
        | some (off, msg) => GoError.errorString
            ("json syntax error in request body, offset=" ++ toString off ++ ": " ++ msg)
        | none => err2
      handleError lib StatusBadRequest err3 { r with Body := rest }
    | (.ok req, rest) =>
      match req.Message with
      | none =>
        handleError lib StatusBadRequest
          (.errorString "missing field in request, expected \"req\"") { r with Body := rest }
      | some m =>
        .headerSet "Content-Type" "application/json" <|
        .writeHeader StatusOK <|
        .write (lib.jsonEncode (.res m)) fun _ =>
        .done { r with Body := rest }

/-- `server.routes()`: the handler registered for `/echo`. -/
def routes (lib : Lib) : HandlerFunc :=
  logRequest lib (logResponse lib (handleEcho lib))

/-! ## Call sequences on a wrapper -/

/-- A call a handler can make on the wrapper. -/
inductive WriterCall where
  | WriteHeader (code : Int)
  | Write (body : Bytes)
  deriving DecidableEq, Repr

/-- The status codes of the `WriteHeader` calls of a sequence, in order. -/
def statusCodes : List WriterCall → List Int
  | [] => []
  | .WriteHeader c :: cs => c :: statusCodes cs
  | .Write _ :: cs => statusCodes cs

/-- Make the calls `cs` one after the other on the wrapper `rw`; the value is
the wrapper afterwards and what each `Write` returned, `acc` first. -/
def callsOn : List WriterCall → responseWrapper → List WriteResult →
    Prog (responseWrapper × List WriteResult)
  | [], rw, acc => .done (rw, acc)
  | .WriteHeader c :: cs, rw, acc => (rw.WriteHeader c).bind fun rw1 => callsOn cs rw1 acc
  | .Write b :: cs, rw, acc => (rw.Write b).bind fun p => callsOn cs p.1 (acc ++ [p.2])

/-- Call `W.Write` with each chunk in turn, directly on the writer: its state
afterwards and what each call returned, `acc` first. -/
def Writer.writeAll {σ : Type} (W : Writer σ) : List Bytes → σ → List WriteResult →
    σ × List WriteResult
  | [], s, acc => (s, acc)
  | b :: bs, s, acc => W.writeAll bs (W.Write s b).1 (acc ++ [(W.Write s b).2])

/-- The computation `p` with every `WriteHeader` after the first one left out
(`wrote` tells whether one has been made already). -/
def Prog.firstStatusOnly {α : Type} : Prog α → Bool → Prog α
  | .done a, _ => .done a
  | .header k, wrote => .header (fun hd => (k hd).firstStatusOnly wrote)
  | .headerSet key v k, wrote => .headerSet key v (k.firstStatusOnly wrote)
  | .writeHeader c k, wrote =>
    if wrote then k.firstStatusOnly true else .writeHeader c (k.firstStatusOnly true)
  | .write b k, wrote => .write b (fun res => (k res).firstStatusOnly wrote)
  | .log e k, wrote => .log e (k.firstStatusOnly wrote)

/-- The computation never calls `WriteHeader`, whatever the writer answers. -/
def Prog.neverSetsStatus {α : Type} : Prog α → Prop
  | .done _ => True
  | .header k => ∀ hd, (k hd).neverSetsStatus
  | .headerSet _ _ k => k.neverSetsStatus
  | .writeHeader _ _ => False
  | .write _ k => ∀ res, (k res).neverSetsStatus
  | .log _ k => k.neverSetsStatus

/-! ## Concrete writer, library and requests used to evaluate the code -/

/-- The state of a writer that keeps every call it receives. -/
structure Recorder where
  headers : Header
  statuses : List Int
  writes : List Bytes
  deriving DecidableEq, Repr

/-- A response writer that records the header map, every status code passed to
`WriteHeader` and every chunk passed to `Write`, and reports each chunk as
written in full. -/
def recorder : Writer Recorder where
  Header s := s.headers
  headerSet s key v := { s with headers := (key, [v]) :: s.headers.filter (fun kv => kv.1 ≠ key) }
  WriteHeader s c := { s with statuses := s.statuses ++ [c] }
  Write s b := ({ s with writes := s.writes ++ [b] }, ((b.length : Int), none))

/-- The recorder before any call. -/
def Recorder.empty : Recorder :=
  { headers := [], statuses := [], writes := [] }

/-- The characters of a string as bytes (all the strings used below are ASCII). -/
def asciiBytes (s : String) : Bytes :=
  s.toList.map fun c => UInt8.ofNat c.toNat

/-- A small stand-in for `encoding/json`: an empty body decodes to `io.EOF`, a
body starting with the byte 0 to a request without `req`, one starting with the
byte 2 to `req = ""`, any other body to `req = "hi"`; an envelope is encoded as
a tag byte followed by its text. -/
def sampleLib : Lib where
  jsonMarshalHeader _ := .ok "headers"
  jsonDecode b :=
    match b.data with
    | [] => (.error .eof, b)
    | 0 :: _ => (.ok { Message := none }, newBodyBuffer [])
    | 2 :: _ => (.ok { Message := some "" }, newBodyBuffer [])
    | _ :: _ => (.ok { Message := some "hi" }, newBodyBuffer [])
  jsonEncode
    | .error m => 0 :: asciiBytes m
    | .res m => 1 :: asciiBytes m

/-- A request with the given method and body, and no read error. -/
def sampleRequest (method : String) (body : Bytes) : Request :=
  { Method := method, URL := "/echo", Proto := "HTTP/1.1",
    Header := [("Content-Type", ["application/json"])], Body := newBodyBuffer body }

/-- A handler that sets the status twice. -/
def setsStatusTwice : HandlerFunc := fun r =>
  .writeHeader 200 <| .writeHeader 500 <| .done r

/-- A handler that only writes one chunk. -/
def onlyWrites : HandlerFunc := fun r =>
  .write [104, 105] fun _ => .done r

/-! ## The echo handler -/

/-- C1: for every string `s`, the empty one included, a POST request whose body
decodes to the request envelope with `req = s` makes `handleEcho` set
`Content-Type` to `application/json`, write status 200 and write the JSON
encoding of the response envelope with `res = s`, and nothing else: no error
envelope is written. -/
theorem handleEcho_success (lib : Lib) (r : Request) (s : String) (rest : BodyReader)
    (hPost : r.Method = "POST")
    (hDecode : lib.jsonDecode r.Body = (.ok { Message := some s }, rest)) :
    handleEcho lib r =
      .headerSet "Content-Type" "application/json"
        (.writeHeader 200
          (.write (lib.jsonEncode (.res s)) fun _ => .done { r with Body := rest })) := by
  simp [handleEcho, MethodPost, StatusOK, hPost, hDecode]

theorem handleEcho_success_witness :
    handleEcho sampleLib (sampleRequest "POST" [1]) =
      .headerSet "Content-Type" "application/json"
        (.writeHeader 200
          (.write (sampleLib.jsonEncode (.res "hi")) fun _ =>
            .done { sampleRequest "POST" [1] with Body := newBodyBuffer [] })) :=
  handleEcho_success sampleLib (sampleRequest "POST" [1]) "hi" (newBodyBuffer []) rfl rfl

/-- C2, as the code has it: a request body that decodes with `req` null or
absent (`Message` is nil) is answered with status 400 and the error envelope
whose text is `missing field in request, expected "req"`, with double quotes
around req and without the word field before it; a body that decodes with
`req` the empty string is not answered with an error envelope but echoed. -/
theorem handleEcho_missing_field (lib : Lib) (r : Request) (rest : BodyReader)
    (hPost : r.Method = "POST") :
    (lib.jsonDecode r.Body = (.ok { Message := none }, rest) →
      handleEcho lib r =
        .headerSet "Content-Type" "application/json"
          (.writeHeader 400
            (.write (lib.jsonEncode (.error "missing field in request, expected \"req\""))
              fun _ => .done { r with Body := rest }))) ∧
    (lib.jsonDecode r.Body = (.ok { Message := some "" }, rest) →
      handleEcho lib r =
        .headerSet "Content-Type" "application/json"
          (.writeHeader 200
            (.write (lib.jsonEncode (.res "")) fun _ => .done { r with Body := rest }))) := by
  constructor
  · intro hDecode
    simp [handleEcho, handleError, MethodPost, StatusBadRequest, hPost, hDecode, GoError.Error]
  · intro hDecode
    simp [handleEcho, MethodPost, StatusOK, hPost, hDecode]

theorem handleEcho_missing_field_witness :
    handleEcho sampleLib (sampleRequest "POST" [0]) =
      .headerSet "Content-Type" "application/json"
        (.writeHeader 400
          (.write (sampleLib.jsonEncode (.error "missing field in request, expected \"req\""))
            fun _ => .done { sampleRequest "POST" [0] with Body := newBodyBuffer [] })) ∧
    handleEcho sampleLib (sampleRequest "POST" [2]) =
      .headerSet "Content-Type" "application/json"
        (.writeHeader 200
          (.write (sampleLib.jsonEncode (.res ""))
            fun _ => .done { sampleRequest "POST" [2] with Body := newBodyBuffer [] })) :=
  ⟨(handleEcho_missing_field sampleLib (sampleRequest "POST" [0]) (newBodyBuffer []) rfl).1 rfl,
   (handleEcho_missing_field sampleLib (sampleRequest "POST" [2]) (newBodyBuffer []) rfl).2 rfl⟩

/-- C2 as stated fails: for a POST body that decodes with `req` null, the one
chunk written is the envelope with the text `missing field in request,
expected "req"`, which is not the envelope with the text the claim gives. -/
theorem handleEcho_missing_field_counterexample :
    ((handleEcho sampleLib (sampleRequest "POST" [0])).run recorder Recorder.empty []).sink.statuses
        = [400] ∧
    ((handleEcho sampleLib (sampleRequest "POST" [0])).run recorder Recorder.empty []).sink.writes
        = [sampleLib.jsonEncode (.error "missing field in request, expected \"req\"")] ∧
    ((handleEcho sampleLib (sampleRequest "POST" [0])).run recorder Recorder.empty []).sink.writes
        ≠ [sampleLib.jsonEncode (.error "missing field in request, expected field `req`")] := by
  refine ⟨rfl, rfl, ?_⟩
  decide

/-- C3: a request whose method is not POST, whatever its body and whatever the
decoder would make of it, is answered with status 405 and the error envelope
`method not allowed, expected POST`; the body reader is left as it was (the
body is not decoded) and no other envelope is written. -/
theorem handleEcho_method_not_allowed (lib : Lib) (r : Request)
    (decoder : BodyReader → Except GoError request × BodyReader)
    (hMethod : r.Method ≠ "POST") :
    handleEcho { lib with jsonDecode := decoder } r =
      .headerSet "Content-Type" "application/json"
        (.writeHeader 405
          (.write (lib.jsonEncode (.error "method not allowed, expected POST"))
            fun _ => .done r)) := by
  simp [handleEcho, handleError, MethodPost, StatusMethodNotAllowed, hMethod, GoError.Error]

theorem handleEcho_method_not_allowed_witness :
    handleEcho { sampleLib with jsonDecode := sampleLib.jsonDecode } (sampleRequest "GET" [1]) =
      .headerSet "Content-Type" "application/json"
        (.writeHeader 405
          (.write (sampleLib.jsonEncode (.error "method not allowed, expected POST"))
            fun _ => .done (sampleRequest "GET" [1]))) :=
  handleEcho_method_not_allowed sampleLib (sampleRequest "GET" [1]) sampleLib.jsonDecode
    (by decide)

/-- C4: a POST request on whose body the decoder reports `io.EOF` (an empty
body) is answered with status 400 and the error envelope `missing request
body`; the message made for `io.EOF` is neither a type error nor a syntax
error, so the two later reclassification steps leave it as it is. -/
theorem handleEcho_missing_body (lib : Lib) (r : Request) (rest : BodyReader)
    (hPost : r.Method = "POST")
    (hDecode : lib.jsonDecode r.Body = (.error .eof, rest)) :
    handleEcho lib r =
        .headerSet "Content-Type" "application/json"
          (.writeHeader 400
            (.write (lib.jsonEncode (.error "missing request body"))
              fun _ => .done { r with Body := rest })) ∧
    errorsAsTypeErr (.errorString "missing request body") = none ∧
    errorsAsSynErr (.errorString "missing request body") = none := by
  refine ⟨?_, rfl, rfl⟩
  simp [handleEcho, handleError, MethodPost, StatusBadRequest, hPost, hDecode, GoError.Error,
    errorsIsEOF, errorsAsTypeErr, errorsAsSynErr]

theorem handleEcho_missing_body_witness :
    handleEcho sampleLib (sampleRequest "POST" []) =
        .headerSet "Content-Type" "application/json"
          (.writeHeader 400
            (.write (sampleLib.jsonEncode (.error "missing request body"))
              fun _ => .done { sampleRequest "POST" [] with Body := newBodyBuffer [] })) ∧
    errorsAsTypeErr (.errorString "missing request body") = none ∧
    errorsAsSynErr (.errorString "missing request body") = none :=
  handleEcho_missing_body sampleLib (sampleRequest "POST" []) (newBodyBuffer []) rfl rfl

/-! ## The request logger -/

/-- C5: when the body of the request reads to the end as the bytes `b` without
error, the request that `logRequest` hands to the downstream handler has the
method, URL, protocol and headers of the original and, in place of the reader
that `io.ReadAll` has drained, a fresh body reader that is unconsumed and
yields exactly `b`; when the headers marshal, `logRequest` logs one entry and
then runs the handler on that request, whatever the handler is (when they do
not, it answers 500 and the handler is not run). -/
theorem logRequest_body_intact (lib : Lib) (r : Request) (b : Bytes)
    (hRead : (ioReadAll r.Body).1 = (b, none)) :
    ∃ r1 : Request,
      r1.Method = r.Method ∧ r1.URL = r.URL ∧ r1.Proto = r.Proto ∧ r1.Header = r.Header ∧
      r1.Body = newBodyBuffer b ∧ (ioReadAll r1.Body).1 = (b, none) ∧
      (ioReadAll (ioReadAll r.Body).2).1 = ([], none) ∧
      (∀ (h : HandlerFunc) (headers : String), lib.jsonMarshalHeader r.Header = .ok headers →
        logRequest lib h r = .log (requestReceivedEntry r1 headers b) (h r1)) ∧
      (∀ (h : HandlerFunc) (err : GoError), lib.jsonMarshalHeader r.Header = .error err →
        logRequest lib h r = handleError lib 500 err r) := by
  simp only [ioReadAll, Prod.mk.injEq] at hRead
  refine ⟨{ r with Body := newBodyBuffer b }, rfl, rfl, rfl, rfl, rfl, rfl, ?_, ?_, ?_⟩
  · simp [ioReadAll, hRead.2]
  · intro h headers hOk
    simp [logRequest, hOk, ioReadAll, hRead.1, hRead.2, Prog.bind]
  · intro h err hErr
    simp [logRequest, hErr, StatusInternalServerError]

theorem logRequest_body_intact_witness :
    ∃ r1 : Request,
      r1.Method = (sampleRequest "POST" [7, 8]).Method ∧
      r1.URL = (sampleRequest "POST" [7, 8]).URL ∧
      r1.Proto = (sampleRequest "POST" [7, 8]).Proto ∧
      r1.Header = (sampleRequest "POST" [7, 8]).Header ∧
      r1.Body = newBodyBuffer [7, 8] ∧ (ioReadAll r1.Body).1 = ([7, 8], none) ∧
      (ioReadAll (ioReadAll (sampleRequest "POST" [7, 8]).Body).2).1 = ([], none) ∧
      (∀ (h : HandlerFunc) (headers : String),
        sampleLib.jsonMarshalHeader (sampleRequest "POST" [7, 8]).Header = .ok headers →
        logRequest sampleLib h (sampleRequest "POST" [7, 8]) =
          .log (requestReceivedEntry r1 headers [7, 8]) (h r1)) ∧
      (∀ (h : HandlerFunc) (err : GoError),
        sampleLib.jsonMarshalHeader (sampleRequest "POST" [7, 8]).Header = .error err →
        logRequest sampleLib h (sampleRequest "POST" [7, 8]) = handleError sampleLib 500 err
          (sampleRequest "POST" [7, 8])) :=
  logRequest_body_intact sampleLib (sampleRequest "POST" [7, 8]) [7, 8] rfl

/-! ## Running sequenced computations -/

theorem Prog.run_bind {σ α β : Type} (W : Writer σ) (p : Prog α) (f : α → Prog β)
    (s : σ) (l : List LogEntry) :
    (p.bind f).run W s l =
      (f (p.run W s l).result).run W (p.run W s l).sink (p.run W s l).logs := by
  induction p generalizing s l with
  | done a => rfl
  | header k ih => simp only [Prog.bind, Prog.run, ih]
  | headerSet key v k ih => simp only [Prog.bind, Prog.run, ih]
  | writeHeader c k ih => simp only [Prog.bind, Prog.run, ih]
  | write b k ih => simp only [Prog.bind, Prog.run, ih]
  | log e k ih => simp only [Prog.bind, Prog.run, ih]

theorem run_WriteHeader_wrote {σ : Type} (W : Writer σ) (rw : responseWrapper) (c : Int)
    (s : σ) (l : List LogEntry) (hw : rw.WroteHeader = true) :
    (rw.WriteHeader c).run W s l = { result := rw, sink := s, logs := l } := by
  simp [responseWrapper.WriteHeader, hw, Prog.run]

theorem run_WriteHeader_first {σ : Type} (W : Writer σ) (rw : responseWrapper) (c : Int)
    (s : σ) (l : List LogEntry) (hw : rw.WroteHeader = false) :
    (rw.WriteHeader c).run W s l =
      { result := { rw with Status := c, WroteHeader := true },
        sink := W.WriteHeader s c, logs := l } := by
  simp [responseWrapper.WriteHeader, hw, Prog.run]

theorem run_Write {σ : Type} (W : Writer σ) (rw : responseWrapper) (b : Bytes)
    (s : σ) (l : List LogEntry) :
    (rw.Write b).run W s l =
      { result := ({ rw with WriteCount := rw.WriteCount + 1, Body := b }, (W.Write s b).2),
        sink := (W.Write s b).1, logs := l } := by
  simp [responseWrapper.Write, Prog.run]

/-! ## The response wrapper: call sequences -/

/-- Once the header is written, no later call changes the recorded status or
clears the flag. -/
theorem callsOn_wrote {σ : Type} (W : Writer σ) (cs : List WriterCall) (rw : responseWrapper)
    (acc : List WriteResult) (s : σ) (l : List LogEntry) (hw : rw.WroteHeader = true) :
    ((callsOn cs rw acc).run W s l).result.1.Status = rw.Status ∧
    ((callsOn cs rw acc).run W s l).result.1.WroteHeader = true := by
  induction cs generalizing rw acc s l with
  | nil => exact ⟨rfl, hw⟩
  | cons c cs ih =>
    cases c with
    | WriteHeader code =>
      simp only [callsOn, Prog.run_bind, run_WriteHeader_wrote W rw code s l hw]
      exact ih rw acc s l hw
    | Write b =>
      simp only [callsOn, Prog.run_bind, run_Write]
      exact ih _ _ _ _ hw

/-- On a wrapper whose header is not yet written, a sequence with a
`WriteHeader` call records the code of the first one. -/
theorem callsOn_first {σ : Type} (W : Writer σ) (cs : List WriterCall) (rw : responseWrapper)
    (acc : List WriteResult) (s : σ) (l : List LogEntry) (c1 : Int) (rest : List Int)
    (hw : rw.WroteHeader = false) (hc : statusCodes cs = c1 :: rest) :
    ((callsOn cs rw acc).run W s l).result.1.Status = c1 ∧
    ((callsOn cs rw acc).run W s l).result.1.WroteHeader = true := by
  induction cs generalizing rw acc s l with
  | nil => simp [statusCodes] at hc
  | cons c cs ih =>
    cases c with
    | WriteHeader code =>
      simp only [statusCodes, List.cons.injEq] at hc
      simp only [callsOn, Prog.run_bind, run_WriteHeader_first W rw code s l hw]
      have h := callsOn_wrote W cs { rw with Status := code, WroteHeader := true } acc
        (W.WriteHeader s code) l rfl
      exact ⟨h.1.trans hc.1, h.2⟩
    | Write b =>
      simp only [statusCodes] at hc
      simp only [callsOn, Prog.run_bind, run_Write]
      exact ih _ _ _ _ hw hc

/-- Without a `WriteHeader` call the recorded status and the flag stay as they were. -/
theorem callsOn_no_status {σ : Type} (W : Writer σ) (cs : List WriterCall)
    (rw : responseWrapper) (acc : List WriteResult) (s : σ) (l : List LogEntry)
    (hc : statusCodes cs = []) :
    ((callsOn cs rw acc).run W s l).result.1.Status = rw.Status ∧
    ((callsOn cs rw acc).run W s l).result.1.WroteHeader = rw.WroteHeader := by
  induction cs generalizing rw acc s l with
  | nil => exact ⟨rfl, rfl⟩
  | cons c cs ih =>
    cases c with
    | WriteHeader code => simp [statusCodes] at hc
    | Write b =>
      simp only [statusCodes] at hc
      simp only [callsOn, Prog.run_bind, run_Write]
      exact ih _ _ _ _ hc

theorem callsOn_append {σ : Type} (W : Writer σ) (cs ds : List WriterCall)
    (rw : responseWrapper) (acc : List WriteResult) (s : σ) (l : List LogEntry) :
    (callsOn (cs ++ ds) rw acc).run W s l =
      (callsOn ds ((callsOn cs rw acc).run W s l).result.1
          ((callsOn cs rw acc).run W s l).result.2).run W
        ((callsOn cs rw acc).run W s l).sink ((callsOn cs rw acc).run W s l).logs := by
  induction cs generalizing rw acc s l with
  | nil => rfl
  | cons c cs ih =>
    cases c with
    | WriteHeader code =>
      simp only [List.cons_append, callsOn, Prog.run_bind]
      exact ih _ _ _ _
    | Write b =>
      simp only [List.cons_append, callsOn, Prog.run_bind]
      exact ih _ _ _ _

/-- A run of `Write` calls: the count grows by their number, the recorded body
is the last chunk, status and flag are untouched, and the embedded writer is
driven exactly as by direct calls. -/
theorem callsOn_writes {σ : Type} (W : Writer σ) (bs : List Bytes) (rw : responseWrapper)
    (acc : List WriteResult) (s : σ) (l : List LogEntry) :
    ((callsOn (bs.map .Write) rw acc).run W s l).result.1.WriteCount
        = rw.WriteCount + bs.length ∧
    ((callsOn (bs.map .Write) rw acc).run W s l).result.1.Body
        = (rw.Body :: bs).getLast (List.cons_ne_nil _ _) ∧
    (((callsOn (bs.map .Write) rw acc).run W s l).sink,
      ((callsOn (bs.map .Write) rw acc).run W s l).result.2) = W.writeAll bs s acc ∧
    ((callsOn (bs.map .Write) rw acc).run W s l).logs = l := by
  induction bs generalizing rw acc s l with
  | nil => simp [callsOn, Prog.run, Writer.writeAll]
  | cons b bs ih =>
    simp only [List.map_cons, callsOn, Prog.run_bind, run_Write, Writer.writeAll]
    obtain ⟨h1, h2, h3, h4⟩ := ih { rw with WriteCount := rw.WriteCount + 1, Body := b }
      (acc ++ [(W.Write s b).2]) (W.Write s b).1 l
    refine ⟨?_, ?_, h3, h4⟩
    · rw [h1]; simp only [List.length_cons]; push_cast; ring
    · rw [h2]; simp [List.getLast_cons]

/-- C6: after any sequence of calls on a fresh wrapper that has at least one
`WriteHeader` call, with `Write` calls interleaved anywhere, the recorded
`Status` is the code of the first `WriteHeader` call, whatever the underlying
writer does. -/
theorem responseWrapper_first_status_wins {σ : Type} (W : Writer σ) (s : σ)
    (l : List LogEntry) (cs : List WriterCall) (c1 : Int) (rest : List Int)
    (hCodes : statusCodes cs = c1 :: rest) :
    ((callsOn cs wrapResponseWriter []).run W s l).result.1.Status = c1 :=
  (callsOn_first W cs wrapResponseWriter [] s l c1 rest rfl hCodes).1

theorem responseWrapper_first_status_wins_witness :
    ((callsOn [.Write [1], .WriteHeader 404, .Write [2], .WriteHeader 200, .WriteHeader 500]
        wrapResponseWriter []).run recorder Recorder.empty []).result.1.Status = 404 :=
  responseWrapper_first_status_wins recorder Recorder.empty []
    [.Write [1], .WriteHeader 404, .Write [2], .WriteHeader 200, .WriteHeader 500]
    404 [200, 500] rfl

/-- C7, as the code has it: a `WriteHeader` call made on a wrapper after an
earlier `WriteHeader` call returns at once: it is not forwarded to the
underlying writer, whose state stays as it was, and the wrapper (the recorded
`Status` included) and the log are unchanged as well. -/
theorem responseWrapper_later_WriteHeader_dropped {σ : Type} (W : Writer σ) (s : σ)
    (l : List LogEntry) (cs : List WriterCall) (code : Int)
    (hEarlier : statusCodes cs ≠ []) :
    (callsOn (cs ++ [.WriteHeader code]) wrapResponseWriter []).run W s l =
      (callsOn cs wrapResponseWriter []).run W s l := by
  obtain ⟨c1, rest, hc⟩ : ∃ c1 rest, statusCodes cs = c1 :: rest := by
    cases h : statusCodes cs with
    | nil => exact absurd h hEarlier
    | cons c1 rest => exact ⟨c1, rest, rfl⟩
  have hw := (callsOn_first W cs wrapResponseWriter [] s l c1 rest rfl hc).2
  rw [callsOn_append]
  simp only [callsOn, Prog.run_bind, run_WriteHeader_wrote W _ code _ _ hw, Prog.run]

theorem responseWrapper_later_WriteHeader_dropped_witness :
    (callsOn ([.WriteHeader 200] ++ [.WriteHeader 500]) wrapResponseWriter []).run
        recorder Recorder.empty [] =
      (callsOn [.WriteHeader 200] wrapResponseWriter []).run recorder Recorder.empty [] :=
  responseWrapper_later_WriteHeader_dropped recorder Recorder.empty [] [.WriteHeader 200] 500
    (by decide)

/-- C7 as stated fails: of the two calls `WriteHeader(200)`, `WriteHeader(500)`
made on a fresh wrapper, the underlying writer receives the first only. -/
theorem responseWrapper_later_WriteHeader_counterexample :
    ((callsOn [.WriteHeader 200, .WriteHeader 500] wrapResponseWriter []).run
        recorder Recorder.empty []).sink.statuses = [200] ∧
    ((callsOn [.WriteHeader 200, .WriteHeader 500] wrapResponseWriter []).run
        recorder Recorder.empty []).sink.statuses ≠ [200, 500] := by
  refine ⟨rfl, ?_⟩
  decide

/-- C8: after `n ≥ 1` calls of `Write` on a fresh wrapper with the chunks
`b1, ..., bn`, `WriteCount` is `n` and the recorded `Body` is `bn` alone; the
underlying writer has received every chunk, unchanged and in order, and each
call has returned what the underlying writer returned. -/
theorem responseWrapper_writes {σ : Type} (W : Writer σ) (s : σ) (l : List LogEntry)
    (bs : List Bytes) (hne : bs ≠ []) :
    ((callsOn (bs.map .Write) wrapResponseWriter []).run W s l).result.1.WriteCount
        = bs.length ∧
    ((callsOn (bs.map .Write) wrapResponseWriter []).run W s l).result.1.Body
        = bs.getLast hne ∧
    ((callsOn (bs.map .Write) wrapResponseWriter []).run W s l).sink
        = (W.writeAll bs s []).1 ∧
    ((callsOn (bs.map .Write) wrapResponseWriter []).run W s l).result.2
        = (W.writeAll bs s []).2 := by
  obtain ⟨h1, h2, h3, _⟩ := callsOn_writes W bs wrapResponseWriter [] s l
  refine ⟨?_, ?_, ?_, ?_⟩
  · rw [h1]; simp [wrapResponseWriter]
  · rw [h2]; exact List.getLast_cons hne
  · exact congrArg Prod.fst h3
  · exact congrArg Prod.snd h3

theorem responseWrapper_writes_witness :
    ((callsOn [.Write [1, 2], .Write [3], .Write [4, 5]] wrapResponseWriter []).run
        recorder Recorder.empty []).result.1.WriteCount = 3 ∧
    ((callsOn [.Write [1, 2], .Write [3], .Write [4, 5]] wrapResponseWriter []).run
        recorder Recorder.empty []).result.1.Body = [4, 5] ∧
    ((callsOn [.Write [1, 2], .Write [3], .Write [4, 5]] wrapResponseWriter []).run
        recorder Recorder.empty []).sink
        = { headers := [], statuses := [], writes := [[1, 2], [3], [4, 5]] } ∧
    ((callsOn [.Write [1, 2], .Write [3], .Write [4, 5]] wrapResponseWriter []).run
        recorder Recorder.empty []).result.2 = [(2, none), (1, none), (2, none)] :=
  responseWrapper_writes recorder Recorder.empty [] [[1, 2], [3], [4, 5]] (by decide)

/-! ## The response logger -/

/-- A computation run through the wrapper drives the underlying writer as the
same computation does directly once every `WriteHeader` after the first is
left out; value and log are the same. -/
theorem Prog.onWrapper_run {σ α : Type} (W : Writer σ) (p : Prog α) (rw : responseWrapper)
    (s : σ) (l : List LogEntry) :
    ((p.onWrapper rw).run W s l).sink = ((p.firstStatusOnly rw.WroteHeader).run W s l).sink ∧
    ((p.onWrapper rw).run W s l).logs = ((p.firstStatusOnly rw.WroteHeader).run W s l).logs ∧
    ((p.onWrapper rw).run W s l).result.1
      = ((p.firstStatusOnly rw.WroteHeader).run W s l).result := by
  induction p generalizing rw s l with
  | done a => exact ⟨rfl, rfl, rfl⟩
  | header k ih =>
    simp only [Prog.onWrapper, Prog.firstStatusOnly, Prog.run]
    exact ih _ rw s l
  | headerSet key v k ih =>
    simp only [Prog.onWrapper, Prog.firstStatusOnly, Prog.run]
    exact ih rw _ l
  | writeHeader c k ih =>
    cases hw : rw.WroteHeader with
    | true =>
      simp only [Prog.onWrapper, Prog.firstStatusOnly, Prog.run_bind,
        run_WriteHeader_wrote W rw c s l hw, if_true]
      have h := ih rw s l
      rw [hw] at h
      exact h
    | false =>
      simp only [Prog.onWrapper, Prog.firstStatusOnly, Prog.run_bind,
        run_WriteHeader_first W rw c s l hw, Prog.run, Bool.false_eq_true, if_false]
      exact ih { rw with Status := c, WroteHeader := true } (W.WriteHeader s c) l
  | write b k ih =>
    simp only [Prog.onWrapper, Prog.firstStatusOnly, Prog.run_bind, run_Write, Prog.run]
    exact ih _ { rw with WriteCount := rw.WriteCount + 1, Body := b } _ l
  | log e k ih =>
    simp only [Prog.onWrapper, Prog.firstStatusOnly, Prog.run]
    exact ih rw s _

/-- A computation that never calls `WriteHeader` leaves the recorded status
and the flag of the wrapper as they were. -/
theorem Prog.onWrapper_never {σ α : Type} (W : Writer σ) (p : Prog α) (rw : responseWrapper)
    (s : σ) (l : List LogEntry) (hp : p.neverSetsStatus) :
    ((p.onWrapper rw).run W s l).result.2.Status = rw.Status ∧
    ((p.onWrapper rw).run W s l).result.2.WroteHeader = rw.WroteHeader := by
  induction p generalizing rw s l with
  | done a => exact ⟨rfl, rfl⟩
  | header k ih =>
    simp only [Prog.onWrapper, Prog.run]
    exact ih _ rw s l (hp _)
  | headerSet key v k ih =>
    simp only [Prog.onWrapper, Prog.run]
    exact ih rw _ l hp
  | writeHeader c k ih => exact absurd hp (by simp [Prog.neverSetsStatus])
  | write b k ih =>
    simp only [Prog.onWrapper, Prog.run_bind, run_Write]
    exact ih _ { rw with WriteCount := rw.WriteCount + 1, Body := b } _ l (hp _)
  | log e k ih =>
    simp only [Prog.onWrapper, Prog.run]
    exact ih rw s _ hp

/-- The logging after the handler: the writer is left as it is, the request is
returned, and the last entry logged is the record of the response. -/
theorem logResponseTail_run {σ : Type} (W : Writer σ) (lib : Lib) (rw : responseWrapper)
    (r : Request) (s : σ) (l : List LogEntry) :
    ((logResponseTail lib rw r).run W s l).sink = s ∧
    ((logResponseTail lib rw r).run W s l).result = r ∧
    ∃ (es : List LogEntry) (headers : String),
      ((logResponseTail lib rw r).run W s l).logs = l ++ es ++ [responseSentEntry rw headers] := by
  cases hm : lib.jsonMarshalHeader (W.Header s) with
  | error err =>
    refine ⟨?_, ?_, [LogEntry.mk "error" "unable to marshal headers"
      (logResponseFields ++ [("error", .err err)])], "", ?_⟩ <;>
      simp [logResponseTail, Prog.run, hm]
  | ok headers =>
    refine ⟨?_, ?_, [], headers, ?_⟩ <;> simp [logResponseTail, Prog.run, hm]

/-- On the recording writer a run only appends to the status codes received. -/
theorem recorder_statuses_extend {α : Type} (p : Prog α) (s : Recorder) (l : List LogEntry) :
    ∃ t : List Int, (p.run recorder s l).sink.statuses = s.statuses ++ t := by
  induction p generalizing s l with
  | done a => exact ⟨[], by simp [Prog.run]⟩
  | header k ih => exact ih _ s l
  | headerSet key v k ih => exact ih _ l
  | writeHeader c k ih =>
    obtain ⟨t, ht⟩ := ih (recorder.WriteHeader s c) l
    exact ⟨c :: t, by simp only [Prog.run, ht]; simp [recorder]⟩
  | write b k ih => exact ih _ _ l
  | log e k ih => exact ih s _

/-- On the recording writer, withholding every `WriteHeader` after the first
changes neither the header map, nor the chunks received, nor the value and the
log; of the status codes only the first is received. -/
theorem recorder_firstStatusOnly {α : Type} (p : Prog α) (wrote : Bool) (s t : Recorder)
    (l : List LogEntry) (hh : s.headers = t.headers) (hw : s.writes = t.writes) :
    ((p.firstStatusOnly wrote).run recorder s l).sink.headers
        = (p.run recorder t l).sink.headers ∧
    ((p.firstStatusOnly wrote).run recorder s l).sink.writes
        = (p.run recorder t l).sink.writes ∧
    ((p.firstStatusOnly wrote).run recorder s l).result = (p.run recorder t l).result ∧
    ((p.firstStatusOnly wrote).run recorder s l).logs = (p.run recorder t l).logs ∧
    (wrote = true → ((p.firstStatusOnly wrote).run recorder s l).sink.statuses = s.statuses) ∧
    (wrote = false → s.statuses = [] → t.statuses = [] →
      ((p.firstStatusOnly wrote).run recorder s l).sink.statuses
        = (p.run recorder t l).sink.statuses.take 1) := by
  induction p generalizing wrote s t l with
  | done a =>
    refine ⟨hh, hw, rfl, rfl, fun _ => rfl, fun _ hs ht => ?_⟩
    simp [Prog.firstStatusOnly, Prog.run, hs, ht]
  | header k ih =>
    simp only [Prog.firstStatusOnly, Prog.run]
    have hk : recorder.Header s = recorder.Header t := hh
    rw [hk]
    exact ih _ wrote s t l hh hw
  | headerSet key v k ih =>
    simp only [Prog.firstStatusOnly, Prog.run]
    exact ih wrote (recorder.headerSet s key v) (recorder.headerSet t key v) l
      (by simp [recorder, hh]) hw
  | writeHeader c k ih =>
    cases wrote with
    | true =>
      simp only [Prog.firstStatusOnly, Prog.run, if_true]
      obtain ⟨h1, h2, h3, h4, h5, _⟩ := ih true s (recorder.WriteHeader t c) l hh hw
      exact ⟨h1, h2, h3, h4, fun _ => h5 rfl, fun hf => by simp at hf⟩
    | false =>
      simp only [Prog.firstStatusOnly, Prog.run, Bool.false_eq_true, if_false]
      obtain ⟨h1, h2, h3, h4, h5, _⟩ :=
        ih true (recorder.WriteHeader s c) (recorder.WriteHeader t c) l hh hw
      refine ⟨h1, h2, h3, h4, fun hf => by simp at hf, fun _ hs ht => ?_⟩
      obtain ⟨u, hu⟩ := recorder_statuses_extend k (recorder.WriteHeader t c) l
      rw [h5 rfl, hu]
      simp [recorder, hs, ht]
  | write b k ih =>
    simp only [Prog.firstStatusOnly, Prog.run]
    have hres : (recorder.Write s b).2 = (recorder.Write t b).2 := rfl
    rw [hres]
    exact ih _ wrote (recorder.Write s b).1 (recorder.Write t b).1 l hh
      (by simp [recorder, hw])
  | log e k ih =>
    simp only [Prog.firstStatusOnly, Prog.run]
    exact ih wrote s t _ hh hw

/-- The echo handler sets the status once on every path, so running it through
the wrapper withholds nothing. -/
theorem handleEcho_single_status (lib : Lib) (r : Request) :
    (handleEcho lib r).firstStatusOnly false = handleEcho lib r := by
  unfold handleEcho
  split
  · rfl
  · split
    · rfl
    · split <;> rfl

/-- C9, as the code has it: for every downstream handler `h`, request and
underlying writer, running `logResponse(h)` leaves the underlying writer in the
state that `h` run directly leaves it in once every `WriteHeader` call of `h`
after its first is withheld, with the same request handed back; the logging
after the handler only appends log entries and makes no call that changes the
writer. On a writer that records what it receives, the header map and the
sequence of body chunks are those of the direct run and the status codes
received are the first one of the direct run alone. For a handler that sets
the status at most once the writer ends in the very state of the direct run. -/
theorem logResponse_transparent {σ : Type} (W : Writer σ) (lib : Lib) (h : HandlerFunc)
    (r : Request) (s : σ) (l : List LogEntry) :
    ((logResponse lib h r).run W s l).sink
        = (((h r).firstStatusOnly false).run W s l).sink ∧
    ((logResponse lib h r).run W s l).result
        = (((h r).firstStatusOnly false).run W s l).result ∧
    (∃ es : List LogEntry, ((logResponse lib h r).run W s l).logs
        = (((h r).firstStatusOnly false).run W s l).logs ++ es) ∧
    (((logResponse lib h r).run recorder Recorder.empty l).sink.headers
        = ((h r).run recorder Recorder.empty l).sink.headers ∧
      ((logResponse lib h r).run recorder Recorder.empty l).sink.writes
        = ((h r).run recorder Recorder.empty l).sink.writes ∧
      ((logResponse lib h r).run recorder Recorder.empty l).sink.statuses
        = ((h r).run recorder Recorder.empty l).sink.statuses.take 1) ∧
    ((h r).firstStatusOnly false = h r →
      ((logResponse lib h r).run W s l).sink = ((h r).run W s l).sink) := by
  obtain ⟨hs, hl, hr⟩ := Prog.onWrapper_run W (h r) wrapResponseWriter s l
  have hTail := fun (rw : responseWrapper) (r1 : Request) (s1 : σ) (l1 : List LogEntry) =>
    logResponseTail_run W lib rw r1 s1 l1
  have key : ((logResponse lib h r).run W s l).sink
      = (((h r).firstStatusOnly false).run W s l).sink := by
    simp only [logResponse, Prog.run_bind]
    rw [(hTail _ _ _ _).1]
    exact hs
  refine ⟨key, ?_, ?_, ?_, ?_⟩
  · simp only [logResponse, Prog.run_bind]
    rw [(hTail _ _ _ _).2.1]
    exact hr
  · simp only [logResponse, Prog.run_bind]
    obtain ⟨es, headers, he⟩ := (hTail
      (((h r).onWrapper wrapResponseWriter).run W s l).result.2
      (((h r).onWrapper wrapResponseWriter).run W s l).result.1
      (((h r).onWrapper wrapResponseWriter).run W s l).sink
      (((h r).onWrapper wrapResponseWriter).run W s l).logs).2.2
    refine ⟨es ++ [responseSentEntry
      (((h r).onWrapper wrapResponseWriter).run W s l).result.2 headers], ?_⟩
    rw [he, hl]
    simp [wrapResponseWriter]
  · have hRec : ((logResponse lib h r).run recorder Recorder.empty l).sink
        = (((h r).firstStatusOnly false).run recorder Recorder.empty l).sink := by
      simp only [logResponse, Prog.run_bind]
      rw [(logResponseTail_run recorder lib _ _ _ _).1]
      exact (Prog.onWrapper_run recorder (h r) wrapResponseWriter Recorder.empty l).1
    obtain ⟨h1, h2, _, _, _, h6⟩ :=
      recorder_firstStatusOnly (h r) false Recorder.empty Recorder.empty l rfl rfl
    rw [hRec]
    exact ⟨h1, h2, h6 rfl rfl rfl⟩
  · intro hOnce
    rw [key, hOnce]

theorem logResponse_transparent_witness :
    ((logResponse sampleLib (handleEcho sampleLib) (sampleRequest "POST" [1])).run
        recorder Recorder.empty []).sink
      = ((handleEcho sampleLib (sampleRequest "POST" [1])).run recorder Recorder.empty []).sink :=
  (logResponse_transparent recorder sampleLib (handleEcho sampleLib) (sampleRequest "POST" [1])
    Recorder.empty []).2.2.2.2 (handleEcho_single_status sampleLib (sampleRequest "POST" [1]))

/-- C9 as stated fails: for the handler that calls `WriteHeader(200)` and then
`WriteHeader(500)`, the underlying writer receives both status codes when the
handler is run directly and only the first when it is run by `logResponse`. -/
theorem logResponse_transparent_counterexample :
    ((setsStatusTwice (sampleRequest "POST" [1])).run recorder Recorder.empty []).sink.statuses
        = [200, 500] ∧
    ((logResponse sampleLib setsStatusTwice (sampleRequest "POST" [1])).run
        recorder Recorder.empty []).sink.statuses = [200] ∧
    ((logResponse sampleLib setsStatusTwice (sampleRequest "POST" [1])).run
        recorder Recorder.empty []).sink
      ≠ ((setsStatusTwice (sampleRequest "POST" [1])).run recorder Recorder.empty []).sink := by
  refine ⟨rfl, rfl, ?_⟩
  decide

/-- C10, as the code has it: when the handler never calls `WriteHeader` (it only
writes, sets headers, or does nothing), the `Status` recorded by the wrapper is
0, the zero value of the field, and the last entry that `logResponse` logs, the
record of the response, carries `status` 0. -/
theorem logResponse_status_unset {σ : Type} (W : Writer σ) (lib : Lib) (h : HandlerFunc)
    (r : Request) (s : σ) (l : List LogEntry) (hNever : (h r).neverSetsStatus) :
    (((h r).onWrapper wrapResponseWriter).run W s l).result.2.Status = 0 ∧
    ∃ (es : List LogEntry) (e : LogEntry),
      ((logResponse lib h r).run W s l).logs = es ++ [e] ∧
      e.msg = "response sent" ∧ e.fields.lookup "status" = some (.int 0) := by
  have hStatus := (Prog.onWrapper_never W (h r) wrapResponseWriter s l hNever).1
  refine ⟨hStatus, ?_⟩
  obtain ⟨es, headers, he⟩ := (logResponseTail_run W lib
    (((h r).onWrapper wrapResponseWriter).run W s l).result.2
    (((h r).onWrapper wrapResponseWriter).run W s l).result.1
    (((h r).onWrapper wrapResponseWriter).run W s l).sink
    (((h r).onWrapper wrapResponseWriter).run W s l).logs).2.2
  refine ⟨(((h r).onWrapper wrapResponseWriter).run W s l).logs ++ es,
    responseSentEntry (((h r).onWrapper wrapResponseWriter).run W s l).result.2 headers,
    ?_, rfl, ?_⟩
  · simp only [logResponse, Prog.run_bind]
    exact he
  · rw [responseSentEntry, hStatus]
    rfl

theorem logResponse_status_unset_witness :
    (((onlyWrites (sampleRequest "POST" [1])).onWrapper wrapResponseWriter).run
        recorder Recorder.empty []).result.2.Status = 0 ∧
    ∃ (es : List LogEntry) (e : LogEntry),
      ((logResponse sampleLib onlyWrites (sampleRequest "POST" [1])).run
          recorder Recorder.empty []).logs = es ++ [e] ∧
      e.msg = "response sent" ∧ e.fields.lookup "status" = some (.int 0) :=
  logResponse_status_unset recorder sampleLib onlyWrites (sampleRequest "POST" [1])
    Recorder.empty [] (fun _ => trivial)

/-- C10 as stated fails: for a handler that only writes one chunk, the status
recorded by the wrapper and logged by `logResponse` is 0, not 200. -/
theorem logResponse_status_unset_counterexample :
    (((onlyWrites (sampleRequest "POST" [1])).onWrapper wrapResponseWriter).run
        recorder Recorder.empty []).result.2.Status ≠ 200 ∧
    ((logResponse sampleLib onlyWrites (sampleRequest "POST" [1])).run
        recorder Recorder.empty []).logs
      = [responseSentEntry
          { Status := 0, WroteHeader := false, Body := [104, 105], WriteCount := 1 }
          "headers"] := by
  refine ⟨?_, rfl⟩
  decide

end ToyApi
